import Mathlib

/-!
Verification of the RadioWizard repository against its specification.

The repository holds a single source file, a Conan 2.0 build manifest
(conanfile.py).  The first part of this file embeds that manifest: the
module structure, the dependency declarations of requirements(), the
test dependency of build_requirements(), and the option rewriting done
by configure().  The second part models, from the words of the
specification, the real-time IQ pipeline that the manifest describes
but whose implementation is absent from the repository.
-/

namespace RadioWizard

/-! ## Embedding of src/conanfile.py -/

/-- Build settings of the recipe: `settings = "os", "compiler", "build_type", "arch"`. -/
structure Settings where
  os : String
  compiler : String
  build_type : String
  arch : String
deriving DecidableEq

/-- One dependency declaration made by `self.requires(ref, override=...)`. -/
structure Requirement where
  ref : String
  override : Bool
deriving DecidableEq

/-- Embeds `RadioWizardConan.requirements`: the nine unconditional
`self.requires` calls, with the `libsystemd/255.10` override inserted
between the zyre and fftw groups when `settings.os` is Linux or FreeBSD. -/
def requirements (s : Settings) : List Requirement :=
  [⟨"spdlog/1.15.0", false⟩,
   ⟨"protobuf/5.27.0", false⟩,
   ⟨"zeromq/4.3.5", false⟩,
   ⟨"cppzmq/4.10.0", false⟩,
   ⟨"czmq/4.2.1", false⟩,
   ⟨"zyre/2.0.1", false⟩]
  ++ (if s.os = "Linux" ∨ s.os = "FreeBSD" then [⟨"libsystemd/255.10", true⟩] else [])
  ++ [⟨"fftw/3.3.10", false⟩,
      ⟨"liquid-dsp/1.6.0", false⟩,
      ⟨"qt/6.10.1", false⟩]

/-- The references a settings valuation declares. -/
def requiredRefs (s : Settings) : List String :=
  (requirements s).map Requirement.ref

/-- Package options of the recipe, as declared in the `options` attribute.
The fPIC option is an `Option Bool` because `configure` may remove it via
`rm_safe`. -/
structure OwnOptions where
  shared : Bool
  fPIC : Option Bool
  build_tests : Bool
  enable_coverage : Bool
  enable_sanitizers : Bool
deriving DecidableEq

/-- Embeds `RadioWizardConan.build_requirements`: gtest is test-required
exactly when the build_tests option is set; nothing else is declared. -/
def build_requirements (o : OwnOptions) : List String :=
  if o.build_tests then ["gtest/1.14.0"] else []

/-- Value written to a dependency option by `configure` (Boolean or string). -/
inductive OptVal where
  | b (x : Bool)
  | s (v : String)
deriving DecidableEq

/-- Option store visible to `configure`: the own options of the package and
the dependency-scoped option assignments (package pattern, option name, value). -/
structure ConfigState where
  own : OwnOptions
  deps : List (String × String × OptVal)
deriving DecidableEq

/-- Dependency option assignments performed by `configure`, in source order. -/
def configureDepWrites : List (String × String × OptVal) :=
  [("czmq/*", "with_systemd", .b false),
   ("qt/*", "shared", .b true),
   ("qt/*", "qtshadertools", .b true),
   ("qt/*", "qtmultimedia", .b true),
   ("qt/*", "gui", .b true),
   ("qt/*", "widgets", .b true),
   ("qt/*", "opengl", .s "desktop"),
   ("qt/*", "with_pq", .b false),
   ("qt/*", "with_odbc", .b false),
   ("qt/*", "with_sqlite3", .b false),
   ("qt/*", "with_openal", .b false)]

/-- Embeds `RadioWizardConan.configure`: removes the own fPIC option when
shared is set (`rm_safe`, so absence is tolerated), then writes the czmq
and qt dependency options. -/
def configure (st : ConfigState) : ConfigState :=
  { own := if st.own.shared then { st.own with fPIC := none } else st.own,
    deps := st.deps ++ configureDepWrites }

/-- Top-level item of the Python module src/conanfile.py. -/
inductive PyDecl where
  | importFrom (module : String) (names : List String)
  | classDef (name : String) (base : String) (classAttrs : List String) (methods : List String)
  | funcDef (name : String)
deriving DecidableEq

/-- Whether a module item is a class definition. -/
def PyDecl.isClassDef : PyDecl → Bool
  | .classDef _ _ _ _ => true
  | _ => false

/-- Whether a module item is a top-level function definition. -/
def PyDecl.isFuncDef : PyDecl → Bool
  | .funcDef _ => true
  | _ => false

/-- The class definition of `RadioWizardConan` in src/conanfile.py:
its base class, class attributes and methods, in source order. -/
def radioWizardConanDecl : PyDecl :=
  .classDef "RadioWizardConan" "ConanFile"
    ["name", "version", "description", "settings", "options", "default_options"]
    ["requirements", "build_requirements", "configure", "layout", "generate"]

/-- The full top-level structure of src/conanfile.py: two import statements
and the single class definition; nothing else is defined at module level. -/
def conanfileModule : List PyDecl :=
  [.importFrom "conan" ["ConanFile"],
   .importFrom "conan.tools.cmake" ["CMakeToolchain", "CMakeDeps", "cmake_layout"],
   radioWizardConanDecl]

/-- The ConanFile lifecycle methods concerned with dependencies and the
toolchain. -/
def conanLifecycleMethods : List String :=
  ["requirements", "build_requirements", "configure", "layout", "generate"]

/-- Names under which the spec describes parts of the IQ pipeline; the
manifest defines none of them. -/
def iqPipelineOperationNames : List String :=
  ["ingest", "assembleFrames", "computeSpectrum", "spectralEstimate",
   "isolateChannel", "demodulate", "publishFrame", "applyConfig",
   "SampleBlock", "SpectralFrame", "ChannelIsolator", "Demodulator",
   "SpectrumEngine", "PipelineSupervisor"]

/-- Methods defined by the classes of a module. -/
def moduleClassMethods (m : List PyDecl) : List String :=
  m.foldr (fun d acc => match d with
    | .classDef _ _ _ ms => ms ++ acc
    | _ => acc) []

/-! ## Spec-modelled IQ pipeline

The repository contains no implementation of the pipeline; the following
definitions are modelled from the words of the specification (sections 3,
4.3, 4.4, 4.6, 5 and 7 of spec.md). -/

/-- Modelled from the spec: the demodulation modes, a closed set of tagged
variants (section 9 of the spec). -/
inductive DemodMode where
  | Amplitude
  | Frequency
  | SingleSideband
  | Digital
deriving DecidableEq

/-- Modelled from the spec: window function identifiers of the SpectrumEngine. -/
inductive WindowFn where
  | Rectangular
  | Hann
  | Hamming
  | Blackman
deriving DecidableEq

/-- Modelled from the spec: ChannelConfig is the record of center frequency
offset, bandwidth, decimation factor and filter parameters (section 3). -/
structure ChannelConfig where
  centerOffset : ℤ
  bandwidth : ℕ
  decimation : ℕ
  filterTaps : ℕ
deriving DecidableEq

/-- Modelled from the spec: DemodConfig is the mode plus mode-specific
parameters such as the squelch threshold (section 3). -/
structure DemodConfig where
  mode : DemodMode
  squelch : ℚ
deriving DecidableEq

/-- Modelled from the spec: SpectrumEngine configuration — transform length,
window function and averaging factor (section 4.2). -/
structure SpectrumConfig where
  fftSize : ℕ
  window : WindowFn
  averaging : ℕ
deriving DecidableEq

/-- Modelled from the spec: the SampleSource binding, carrying the declared
fixed sample rate (section 6). -/
structure SourceBinding where
  sourceId : ℕ
  rate : ℕ
deriving DecidableEq

/-- Modelled from the spec: PipelineState, the live composition of source
binding, ChannelConfig, DemodConfig and SpectrumEngine config (section 3). -/
structure PipelineState where
  source : SourceBinding
  channel : ChannelConfig
  demod : DemodConfig
  spectrum : SpectrumConfig
deriving DecidableEq

/-- Modelled from the spec: validation of a ChannelConfig against the source
rate, absent from the repository.  Checks that the decimation factor is
positive, that the bandwidth respects the Nyquist bound for the decimated
rate, and that the decimation factor evenly relates output rate to input
rate; returns a descriptive error naming the failed invariant (section 7). -/
def validateChannel (rate : ℕ) (c : ChannelConfig) : Option String :=
  if c.decimation = 0 then
    some "decimation factor must be positive"
  else if ¬ (2 * c.decimation * c.bandwidth ≤ rate) then
    some "bandwidth exceeds Nyquist for decimation factor"
  else if ¬ (c.decimation ∣ rate) then
    some "decimation factor does not evenly divide the source rate"
  else
    none

/-- Modelled from the spec: ChannelIsolator state, the accepted configuration
plus the filter delay line that persists across blocks in one epoch
(section 4.3). -/
structure IsolatorState where
  config : ChannelConfig
  delayLine : List ℚ
deriving DecidableEq

/-- Modelled from the spec: configuring the ChannelIsolator, absent from the
repository.  A config violating validation is rejected with the validation
error; an accepted config is stored exactly as requested, never clamped or
clipped (section 4.3). -/
def configureIsolator (rate : ℕ) (c : ChannelConfig) : Except String IsolatorState :=
  match validateChannel rate c with
  | some e => .error e
  | none => .ok { config := c, delayLine := List.replicate c.filterTaps 0 }

/-- Modelled from the spec: validation of the SpectrumEngine configuration. -/
def validateSpectrum (sc : SpectrumConfig) : Option String :=
  if sc.fftSize = 0 then some "transform length must be positive" else none

/-- Modelled from the spec: cross-stage validation of a full PipelineState
(Nyquist, decimation/rate consistency), performed before any stage is
touched (section 4.6). -/
def validatePipeline (p : PipelineState) : Option String :=
  match validateChannel p.source.rate p.channel with
  | some e => some e
  | none => validateSpectrum p.spectrum

/-- Modelled from the spec: an incremental PipelineState update; a field left
out keeps the current value (section 4.6, applyConfig takes incremental or
full PipelineState). -/
structure PipelineUpdate where
  source : Option SourceBinding
  channel : Option ChannelConfig
  demod : Option DemodConfig
  spectrum : Option SpectrumConfig
deriving DecidableEq

/-- Modelled from the spec: merging an incremental update into the current
authoritative PipelineState. -/
def mergeState (p : PipelineState) (u : PipelineUpdate) : PipelineState :=
  { source := u.source.getD p.source,
    channel := u.channel.getD p.channel,
    demod := u.demod.getD p.demod,
    spectrum := u.spectrum.getD p.spectrum }

/-- Modelled from the spec: the PipelineSupervisor, owner of exactly one
PipelineState, with the telemetry counters the spec makes observable:
configuration epoch, stage restarts, and validation checks performed
(sections 4.6 and 6). -/
structure Supervisor where
  current : PipelineState
  epoch : ℕ
  stageRestarts : ℕ
  validationChecks : ℕ
deriving DecidableEq

/-- Modelled from the spec: applyConfig, absent from the repository.  It
validates the merged state before touching any running stage; on failure it
returns the descriptive error and changes nothing but the validation
counter; on success with an unchanged state it is a no-op beyond the
validation check; otherwise it installs the new state, opening a new
configuration epoch and restarting the affected stages (section 4.6). -/
def applyConfig (sup : Supervisor) (u : PipelineUpdate) : Supervisor × Option String :=
  let checked : Supervisor := { sup with validationChecks := sup.validationChecks + 1 }
  let p := mergeState sup.current u
  match validatePipeline p with
  | some e => (checked, some e)
  | none =>
    if p = sup.current then (checked, none)
    else
      let installed : Supervisor :=
        { current := p, epoch := sup.epoch + 1,
          stageRestarts := sup.stageRestarts + 1,
          validationChecks := sup.validationChecks + 1 }
      (installed, none)

/-- Modelled from the spec: SampleBlock, an ordered fixed-length sequence of
complex samples plus a monotonic block sequence number and a capture
timestamp (section 3). -/
structure SampleBlock where
  seq : ℕ
  stamp : ℕ
  samples : List (ℤ × ℤ)
deriving DecidableEq

/-- Modelled from the spec: SpectralFrame, per-bin power values plus the
sequence number of the block it was computed from (section 3). -/
structure SpectralFrame where
  seq : ℕ
  bins : List ℤ
deriving DecidableEq

/-- Modelled from the spec: OutputFrame, the demodulated output of one
narrowband block, carrying the sequence number of that block (section 3). -/
structure OutputFrame where
  seq : ℕ
  payload : List ℤ
deriving DecidableEq

/-- Modelled from the spec: the per-block SpectrumEngine transform, absent
from the repository, reduced to its data-flow skeleton — one SpectralFrame
per SampleBlock with magnitude-squared bins, preserving the block sequence
number (section 4.2). -/
def mkSpectralFrame (b : SampleBlock) : SpectralFrame :=
  ⟨b.seq, b.samples.map (fun z => z.1 * z.1 + z.2 * z.2)⟩

/-- Modelled from the spec: the ChannelIsolator → Demodulator chain on one
block, absent from the repository, reduced to its data-flow skeleton — one
OutputFrame per SampleBlock, preserving the block sequence number
(sections 4.3 and 4.4). -/
def mkOutputFrame (b : SampleBlock) : OutputFrame :=
  ⟨b.seq, b.samples.map (fun z => z.1)⟩

/-- Modelled from the spec: the joint state of the two concurrently
schedulable stages; each stage keeps its own cursor into the shared block
sequence and its own list of emitted frames (section 5). -/
structure ConcState where
  specIdx : ℕ
  isoIdx : ℕ
  spectral : List SpectralFrame
  outputs : List OutputFrame
deriving DecidableEq

/-- Modelled from the spec: one scheduling step of the concurrent execution
— true schedules the SpectrumEngine, false the ChannelIsolator/Demodulator
chain; each stage consumes its next block in order when one is available
(section 5). -/
def concStep (input : List SampleBlock) (st : ConcState) (which : Bool) : ConcState :=
  if which then
    match input[st.specIdx]? with
    | some b =>
      { st with specIdx := st.specIdx + 1, spectral := st.spectral ++ [mkSpectralFrame b] }
    | none => st
  else
    match input[st.isoIdx]? with
    | some b =>
      { st with isoIdx := st.isoIdx + 1, outputs := st.outputs ++ [mkOutputFrame b] }
    | none => st

/-- Modelled from the spec: running both stages under an arbitrary
interleaving schedule within one configuration epoch, from empty output
queues (section 5). -/
def runConc (input : List SampleBlock) (sched : List Bool) : ConcState :=
  sched.foldl (concStep input) ⟨0, 0, [], []⟩

/-- Modelled from the spec: the lock-relevant demodulator states for modes
that require carrier or symbol lock (section 4.4). -/
inductive LockMode where
  | Searching
  | Locked
deriving DecidableEq

/-- Modelled from the spec: lock threshold, dwell count and hold count of
the demodulator hysteresis (section 4.4). -/
structure LockParams where
  threshold : ℚ
  dwell : ℕ
  hold : ℕ
deriving DecidableEq

/-- Modelled from the spec: demodulator lock state — the mode and the count
of consecutive blocks on the transition-relevant side of the threshold. -/
structure DemodLockState where
  mode : LockMode
  streak : ℕ
deriving DecidableEq

/-- Modelled from the spec: whether the lock metric is above the threshold. -/
def lockAbove (p : LockParams) (m : ℚ) : Bool :=
  decide (p.threshold < m)

/-- Modelled from the spec: one step of the demodulator lock state machine,
absent from the repository (section 4.4).  Searching→Locked once the metric
has stayed above the threshold for the dwell count; Locked→Searching once
it has stayed below for the hold count; shorter excursions only move the
streak counter — this hysteresis prevents rapid chatter. -/
def lockStep (p : LockParams) (st : DemodLockState) (m : ℚ) : DemodLockState :=
  match st.mode with
  | .Searching =>
    if lockAbove p m then
      if p.dwell ≤ st.streak + 1 then ⟨.Locked, 0⟩ else ⟨.Searching, st.streak + 1⟩
    else ⟨.Searching, 0⟩
  | .Locked =>
    if lockAbove p m then ⟨.Locked, 0⟩
    else if p.hold ≤ st.streak + 1 then ⟨.Searching, 0⟩ else ⟨.Locked, st.streak + 1⟩

/-- Modelled from the spec: the demodulator lock state after consuming a
sequence of per-block lock metrics. -/
def lockRun (p : LockParams) (st : DemodLockState) (ms : List ℚ) : DemodLockState :=
  ms.foldl (lockStep p) st

/-- Modelled from the spec: the full trajectory of lock states along a
metric sequence, initial state included. -/
def lockTrace (p : LockParams) (st : DemodLockState) : List ℚ → List DemodLockState
  | [] => [st]
  | m :: ms => st :: lockTrace p (lockStep p st m) ms

/-- Whether a pair of consecutive states is a Searching→Locked transition. -/
def isLockUp (a b : DemodLockState) : Bool :=
  match a.mode, b.mode with
  | .Searching, .Locked => true
  | _, _ => false

/-- Whether a pair of consecutive states is a Locked→Searching transition. -/
def isLockDown (a b : DemodLockState) : Bool :=
  match a.mode, b.mode with
  | .Locked, .Searching => true
  | _, _ => false

/-- Number of consecutive state pairs of a trajectory satisfying f. -/
def countTrans (f : DemodLockState → DemodLockState → Bool) : List DemodLockState → ℕ
  | a :: b :: rest => (if f a b then 1 else 0) + countTrans f (b :: rest)
  | _ => 0

end RadioWizard

namespace RadioWizard

/-! ## Theorems about the build manifest -/

/-- C1: for every settings valuation, requirements() declares at least one
dependency in each of the four technology classes named by the spec:
Fourier/DSP (fftw/3.3.10 and liquid-dsp/1.6.0), publish/subscribe transport
with peer discovery (zeromq/4.3.5, cppzmq/4.10.0, czmq/4.2.1, zyre/2.0.1),
protocol-buffer serialization (protobuf/5.27.0), and a real-time graphing
surface (qt/6.10.1). -/
theorem requirements_cover_technology_classes (s : Settings) :
    "fftw/3.3.10" ∈ requiredRefs s ∧ "liquid-dsp/1.6.0" ∈ requiredRefs s ∧
    "zeromq/4.3.5" ∈ requiredRefs s ∧ "cppzmq/4.10.0" ∈ requiredRefs s ∧
    "czmq/4.2.1" ∈ requiredRefs s ∧ "zyre/2.0.1" ∈ requiredRefs s ∧
    "protobuf/5.27.0" ∈ requiredRefs s ∧ "qt/6.10.1" ∈ requiredRefs s := by
  by_cases h : s.os = "Linux" ∨ s.os = "FreeBSD" <;>
    simp [requiredRefs, requirements, h]

/-- C2: the module defines exactly one class, RadioWizardConan, a ConanFile
subclass carrying the name/version/description/settings/options attributes;
its methods are exactly the Conan dependency/toolchain lifecycle methods;
the module defines no top-level function; and no method or class is one of
the IQ-pipeline operations (sample ingestion, spectral estimation, channel
isolation, demodulation). -/
theorem conanfile_is_pure_manifest :
    conanfileModule.filter PyDecl.isClassDef = [radioWizardConanDecl] ∧
    radioWizardConanDecl = .classDef "RadioWizardConan" "ConanFile"
      ["name", "version", "description", "settings", "options", "default_options"]
      conanLifecycleMethods ∧
    (∀ d ∈ conanfileModule, d.isFuncDef = false) ∧
    (∀ m ∈ moduleClassMethods conanfileModule, m ∈ conanLifecycleMethods) ∧
    (∀ m ∈ moduleClassMethods conanfileModule, m ∉ iqPipelineOperationNames) := by
  refine ⟨by decide, by decide, ?_, ?_, ?_⟩ <;> decide

/-- C8: build_requirements() declares gtest/1.14.0 if and only if the
build_tests option is True, and declares nothing else for any options
valuation. -/
theorem build_requirements_gtest_iff_build_tests (o : OwnOptions) :
    ("gtest/1.14.0" ∈ build_requirements o ↔ o.build_tests = true) ∧
    (∀ r ∈ build_requirements o, r = "gtest/1.14.0") := by
  cases h : o.build_tests <;> simp [build_requirements, h]

/-- C10: requirements() depends only on settings.os: it always declares
exactly the nine direct dependencies, and declares the libsystemd/255.10
override if and only if the OS is Linux or FreeBSD. -/
theorem requirements_exact_dependency_set (s : Settings) :
    ((requirements s).filter (fun r => !r.override)).map Requirement.ref =
      ["spdlog/1.15.0", "protobuf/5.27.0", "zeromq/4.3.5", "cppzmq/4.10.0",
       "czmq/4.2.1", "zyre/2.0.1", "fftw/3.3.10", "liquid-dsp/1.6.0", "qt/6.10.1"] ∧
    ((⟨"libsystemd/255.10", true⟩ : Requirement) ∈ requirements s ↔
      (s.os = "Linux" ∨ s.os = "FreeBSD")) ∧
    (∀ r ∈ requirements s, r.override = true → r.ref = "libsystemd/255.10") := by
  refine ⟨?_, ?_, ?_⟩ <;>
    by_cases h : s.os = "Linux" ∨ s.os = "FreeBSD" <;>
      simp only [requirements, h, if_pos, if_neg, not_false_iff] <;> decide

/-- C9: configure() removes the own fPIC option exactly when shared is True
(leaving it as it was when shared is False), changes no other own option,
and the only other options it writes are dependency-scoped: the czmq
with_systemd option and the qt module/driver options. -/
theorem configure_fpic_and_frame (st : ConfigState) :
    (configure st).own.fPIC = (if st.own.shared then none else st.own.fPIC) ∧
    (configure st).own.shared = st.own.shared ∧
    (configure st).own.build_tests = st.own.build_tests ∧
    (configure st).own.enable_coverage = st.own.enable_coverage ∧
    (configure st).own.enable_sanitizers = st.own.enable_sanitizers ∧
    (configure st).deps = st.deps ++ configureDepWrites ∧
    (∀ w ∈ configureDepWrites, w.1 = "czmq/*" ∨ w.1 = "qt/*") := by
  refine ⟨?_, ?_, ?_, ?_, ?_, by simp [configure], ?_⟩
  · by_cases h : st.own.shared <;> simp [configure, h]
  · by_cases h : st.own.shared <;> simp [configure, h]
  · by_cases h : st.own.shared <;> simp [configure, h]
  · by_cases h : st.own.shared <;> simp [configure, h]
  · by_cases h : st.own.shared <;> simp [configure, h]
  · intro w hw
    fin_cases hw <;> simp

/-- Merging the same update twice gives the same state as merging it once. -/
theorem mergeState_idem (p : PipelineState) (u : PipelineUpdate) :
    mergeState (mergeState p u) u = mergeState p u := by
  cases u with
  | mk s c d sp =>
    cases s <;> cases c <;> cases d <;> cases sp <;> rfl

/-- When validation of the merged state succeeds, the updated supervisor
holds exactly the merged state. -/
theorem applyConfig_current_of_valid (sup : Supervisor) (u : PipelineUpdate)
    (h : validatePipeline (mergeState sup.current u) = none) :
    (applyConfig sup u).1.current = mergeState sup.current u := by
  by_cases hp : mergeState sup.current u = sup.current
  · have h2 : validatePipeline sup.current = none := hp ▸ h
    simp [applyConfig, hp, h2]
  · simp [applyConfig, h, hp]

/-- For a positive decimation factor, the exact rational Nyquist bound of
the spec coincides with the integer check performed by validateChannel. -/
theorem nyquist_bound_iff (rate : ℕ) (c : ChannelConfig) (h0 : c.decimation ≠ 0) :
    ((c.bandwidth : ℚ) ≤ (rate : ℚ) / (2 * (c.decimation : ℚ))) ↔
      2 * c.decimation * c.bandwidth ≤ rate := by
  have hd : (0 : ℚ) < (c.decimation : ℚ) := by
    exact_mod_cast Nat.pos_of_ne_zero h0
  have hpos : (0 : ℚ) < 2 * (c.decimation : ℚ) := by linarith
  rw [le_div_iff₀ hpos]
  rw [show (c.bandwidth : ℚ) * (2 * (c.decimation : ℚ))
        = ((2 * c.decimation * c.bandwidth : ℕ) : ℚ) by push_cast; ring]
  exact Nat.cast_le

/-- C3: every ChannelConfig accepted as valid satisfies
bandwidth ≤ sourceRate / (2 × decimation); every config violating this
bound is rejected with a validation error; and an accepted config is
stored by the isolator exactly as requested, never clamped or clipped. -/
theorem channel_nyquist_validation (rate : ℕ) (c : ChannelConfig) :
    (validateChannel rate c = none →
      (c.bandwidth : ℚ) ≤ (rate : ℚ) / (2 * (c.decimation : ℚ))) ∧
    (¬ ((c.bandwidth : ℚ) ≤ (rate : ℚ) / (2 * (c.decimation : ℚ))) →
      ∃ e, validateChannel rate c = some e) ∧
    (∀ st, configureIsolator rate c = .ok st → st.config = c) := by
  refine ⟨?_, ?_, ?_⟩
  · intro h
    by_cases h0 : c.decimation = 0
    · simp [validateChannel, h0] at h
    · by_cases hb : 2 * c.decimation * c.bandwidth ≤ rate
      · exact (nyquist_bound_iff rate c h0).mpr hb
      · simp [validateChannel, h0, hb] at h
  · intro hb
    by_cases h0 : c.decimation = 0
    · refine ⟨"decimation factor must be positive", ?_⟩
      simp [validateChannel, h0]
    · have hn : ¬ (2 * c.decimation * c.bandwidth ≤ rate) := fun hc =>
        hb ((nyquist_bound_iff rate c h0).mpr hc)
      refine ⟨"bandwidth exceeds Nyquist for decimation factor", ?_⟩
      simp [validateChannel, h0, hn]
  · intro st h
    cases hv : validateChannel rate c with
    | some e => simp [configureIsolator, hv] at h
    | none =>
      simp [configureIsolator, hv] at h
      rw [← h]

/-- Concrete check of C3: a 2 kHz channel at decimation 4 on a 96 kHz
source is within the Nyquist bound, and a 20 kHz channel at the same
decimation is rejected. -/
theorem channel_nyquist_validation_witness :
    (((2000 : ℕ) : ℚ) ≤ ((96000 : ℕ) : ℚ) / (2 * ((4 : ℕ) : ℚ))) ∧
    (∃ e, validateChannel 96000 ⟨0, 20000, 4, 16⟩ = some e) :=
  ⟨(channel_nyquist_validation 96000 ⟨0, 2000, 4, 16⟩).1 (by decide),
   (channel_nyquist_validation 96000 ⟨0, 20000, 4, 16⟩).2.1 (by
      intro hq
      exact absurd ((nyquist_bound_iff 96000 ⟨0, 20000, 4, 16⟩ (by decide)).mp hq)
        (by decide))⟩

/-- C4: applyConfig is atomic with respect to validation failure: when the
merged PipelineState fails cross-stage validation, the call returns the
descriptive error and the running state, epoch and restart counter are
exactly as before the call. -/
theorem applyConfig_atomic_on_invalid (sup : Supervisor) (u : PipelineUpdate) (e : String)
    (h : validatePipeline (mergeState sup.current u) = some e) :
    (applyConfig sup u).2 = some e ∧
    (applyConfig sup u).1.current = sup.current ∧
    (applyConfig sup u).1.epoch = sup.epoch ∧
    (applyConfig sup u).1.stageRestarts = sup.stageRestarts := by
  simp [applyConfig, h]

/-- Concrete check of C4: a channel update violating Nyquist is rejected
with the Nyquist error and the running configuration is untouched. -/
theorem applyConfig_atomic_on_invalid_witness :
    (applyConfig
        ⟨⟨⟨1, 96000⟩, ⟨0, 2000, 4, 16⟩, ⟨.Frequency, 1⟩, ⟨1024, .Hann, 4⟩⟩, 0, 0, 0⟩
        ⟨none, some ⟨0, 20000, 4, 16⟩, none, none⟩).2 =
      some "bandwidth exceeds Nyquist for decimation factor" ∧
    (applyConfig
        ⟨⟨⟨1, 96000⟩, ⟨0, 2000, 4, 16⟩, ⟨.Frequency, 1⟩, ⟨1024, .Hann, 4⟩⟩, 0, 0, 0⟩
        ⟨none, some ⟨0, 20000, 4, 16⟩, none, none⟩).1.current =
      ⟨⟨1, 96000⟩, ⟨0, 2000, 4, 16⟩, ⟨.Frequency, 1⟩, ⟨1024, .Hann, 4⟩⟩ := by
  have h := applyConfig_atomic_on_invalid
    ⟨⟨⟨1, 96000⟩, ⟨0, 2000, 4, 16⟩, ⟨.Frequency, 1⟩, ⟨1024, .Hann, 4⟩⟩, 0, 0, 0⟩
    ⟨none, some ⟨0, 20000, 4, 16⟩, none, none⟩
    "bandwidth exceeds Nyquist for decimation factor" (by decide)
  exact ⟨h.1, h.2.1⟩

/-- C5: applyConfig is idempotent: immediately re-applying a successfully
applied update changes neither the state, the epoch, nor the restart
counter, succeeds, and increments only the validation-check counter. -/
theorem applyConfig_idempotent (sup : Supervisor) (u : PipelineUpdate)
    (h : validatePipeline (mergeState sup.current u) = none) :
    (applyConfig (applyConfig sup u).1 u).1.current = (applyConfig sup u).1.current ∧
    (applyConfig (applyConfig sup u).1 u).1.epoch = (applyConfig sup u).1.epoch ∧
    (applyConfig (applyConfig sup u).1 u).1.stageRestarts = (applyConfig sup u).1.stageRestarts ∧
    (applyConfig (applyConfig sup u).1 u).1.validationChecks
      = (applyConfig sup u).1.validationChecks + 1 ∧
    (applyConfig (applyConfig sup u).1 u).2 = none := by
  set s1 := (applyConfig sup u).1 with hs1
  have hc : s1.current = mergeState sup.current u :=
    applyConfig_current_of_valid sup u h
  have hm : mergeState s1.current u = s1.current := by
    rw [hc, mergeState_idem]
  have hv : validatePipeline s1.current = none := by
    rw [hc]; exact h
  simp [applyConfig, hv, hm]

/-- Concrete check of C5: re-applying a valid channel update is a no-op on
the epoch and restart counter and reports success. -/
theorem applyConfig_idempotent_witness :
    (applyConfig
        (applyConfig
          ⟨⟨⟨1, 96000⟩, ⟨0, 2000, 4, 16⟩, ⟨.Frequency, 1⟩, ⟨1024, .Hann, 4⟩⟩, 0, 0, 0⟩
          ⟨none, some ⟨0, 3000, 8, 32⟩, none, none⟩).1
        ⟨none, some ⟨0, 3000, 8, 32⟩, none, none⟩).1.epoch =
      (applyConfig
        ⟨⟨⟨1, 96000⟩, ⟨0, 2000, 4, 16⟩, ⟨.Frequency, 1⟩, ⟨1024, .Hann, 4⟩⟩, 0, 0, 0⟩
        ⟨none, some ⟨0, 3000, 8, 32⟩, none, none⟩).1.epoch ∧
    (applyConfig
        (applyConfig
          ⟨⟨⟨1, 96000⟩, ⟨0, 2000, 4, 16⟩, ⟨.Frequency, 1⟩, ⟨1024, .Hann, 4⟩⟩, 0, 0, 0⟩
          ⟨none, some ⟨0, 3000, 8, 32⟩, none, none⟩).1
        ⟨none, some ⟨0, 3000, 8, 32⟩, none, none⟩).2 = none := by
  have h := applyConfig_idempotent
    ⟨⟨⟨1, 96000⟩, ⟨0, 2000, 4, 16⟩, ⟨.Frequency, 1⟩, ⟨1024, .Hann, 4⟩⟩, 0, 0, 0⟩
    ⟨none, some ⟨0, 3000, 8, 32⟩, none, none⟩ (by decide)
  exact ⟨h.2.1, h.2.2.2.2⟩

/-- One scheduling step preserves the stage invariant: each output list is
the image of the prefix of blocks already consumed by that stage. -/
theorem concStep_inv (input : List SampleBlock) (st : ConcState) (w : Bool)
    (h1 : st.spectral = (input.take st.specIdx).map mkSpectralFrame)
    (h2 : st.outputs = (input.take st.isoIdx).map mkOutputFrame) :
    (concStep input st w).spectral
      = (input.take (concStep input st w).specIdx).map mkSpectralFrame ∧
    (concStep input st w).outputs
      = (input.take (concStep input st w).isoIdx).map mkOutputFrame := by
  cases w
  · cases hb : input[st.isoIdx]? with
    | none => simp [concStep, hb, h1, h2]
    | some b =>
      refine ⟨by simp [concStep, hb, h1], ?_⟩
      simp [concStep, hb, h2, List.take_succ]
  · cases hb : input[st.specIdx]? with
    | none => simp [concStep, hb, h1, h2]
    | some b =>
      refine ⟨?_, by simp [concStep, hb, h2]⟩
      simp [concStep, hb, h1, List.take_succ]

/-- The stage invariant holds after any schedule, from any state
satisfying it. -/
theorem foldl_conc_inv (input : List SampleBlock) :
    ∀ (sched : List Bool) (st : ConcState),
    st.spectral = (input.take st.specIdx).map mkSpectralFrame →
    st.outputs = (input.take st.isoIdx).map mkOutputFrame →
    (sched.foldl (concStep input) st).spectral
      = (input.take (sched.foldl (concStep input) st).specIdx).map mkSpectralFrame ∧
    (sched.foldl (concStep input) st).outputs
      = (input.take (sched.foldl (concStep input) st).isoIdx).map mkOutputFrame := by
  intro sched
  induction sched with
  | nil => intro st h1 h2; exact ⟨h1, h2⟩
  | cons w ws ih =>
    intro st h1 h2
    have h := concStep_inv input st w h1 h2
    exact ih (concStep input st w) h.1 h.2

/-- C6: within one configuration epoch, for every block sequence with
strictly increasing sequence numbers and every interleaving of the
SpectrumEngine and the ChannelIsolator/Demodulator chain, the emitted
SpectralFrames and OutputFrames carry strictly increasing, duplicate-free
sequence numbers. -/
theorem pipeline_sequence_ordering (input : List SampleBlock) (sched : List Bool)
    (h : (input.map SampleBlock.seq).Pairwise (· < ·)) :
    ((runConc input sched).spectral.map SpectralFrame.seq).Pairwise (· < ·) ∧
    ((runConc input sched).outputs.map OutputFrame.seq).Pairwise (· < ·) ∧
    ((runConc input sched).spectral.map SpectralFrame.seq).Nodup ∧
    ((runConc input sched).outputs.map OutputFrame.seq).Nodup := by
  obtain ⟨h1, h2⟩ := foldl_conc_inv input sched ⟨0, 0, [], []⟩ rfl rfl
  have e1 : (runConc input sched).spectral.map SpectralFrame.seq
      = (input.map SampleBlock.seq).take (runConc input sched).specIdx := by
    show (sched.foldl (concStep input) ⟨0, 0, [], []⟩).spectral.map SpectralFrame.seq = _
    rw [h1, List.map_map, ← List.map_take]
    rfl
  have e2 : (runConc input sched).outputs.map OutputFrame.seq
      = (input.map SampleBlock.seq).take (runConc input sched).isoIdx := by
    show (sched.foldl (concStep input) ⟨0, 0, [], []⟩).outputs.map OutputFrame.seq = _
    rw [h2, List.map_map, ← List.map_take]
    rfl
  have p1 : ((runConc input sched).spectral.map SpectralFrame.seq).Pairwise (· < ·) := by
    rw [e1]; exact h.sublist (List.take_sublist _ _)
  have p2 : ((runConc input sched).outputs.map OutputFrame.seq).Pairwise (· < ·) := by
    rw [e2]; exact h.sublist (List.take_sublist _ _)
  exact ⟨p1, p2, p1.imp ne_of_lt, p2.imp ne_of_lt⟩

/-- Concrete check of C6: a three-block stream with sequence numbers
1, 3, 7 under an arbitrary interleaving yields strictly increasing,
duplicate-free frame sequence numbers on both paths. -/
theorem pipeline_sequence_ordering_witness :
    ((runConc [⟨1, 0, [(1, 2)]⟩, ⟨3, 1, []⟩, ⟨7, 2, [(0, 1)]⟩]
        [true, false, true, true, false]).spectral.map SpectralFrame.seq).Pairwise (· < ·) ∧
    ((runConc [⟨1, 0, [(1, 2)]⟩, ⟨3, 1, []⟩, ⟨7, 2, [(0, 1)]⟩]
        [true, false, true, true, false]).outputs.map OutputFrame.seq).Nodup := by
  have h := pipeline_sequence_ordering
    [⟨1, 0, [(1, 2)]⟩, ⟨3, 1, []⟩, ⟨7, 2, [(0, 1)]⟩]
    [true, false, true, true, false] (by decide)
  exact ⟨h.1, h.2.2.2⟩

/-- Prepending a state to a trajectory adds one transition pair. -/
theorem countTrans_cons_trace (f : DemodLockState → DemodLockState → Bool)
    (p : LockParams) (s sp : DemodLockState) (ms : List ℚ) :
    countTrans f (s :: lockTrace p sp ms)
      = (if f s sp then 1 else 0) + countTrans f (lockTrace p sp ms) := by
  cases ms <;> rfl

/-- Transition counts split across a concatenation of metric segments. -/
theorem countTrans_trace_append (f : DemodLockState → DemodLockState → Bool)
    (p : LockParams) :
    ∀ (l1 l2 : List ℚ) (st : DemodLockState),
    countTrans f (lockTrace p st (l1 ++ l2))
      = countTrans f (lockTrace p st l1)
        + countTrans f (lockTrace p (lockRun p st l1) l2) := by
  intro l1
  induction l1 with
  | nil =>
    intro l2 st
    show countTrans f (lockTrace p st l2) = countTrans f [st] + _
    have hr : lockRun p st [] = st := rfl
    rw [hr]
    show countTrans f (lockTrace p st l2) = 0 + countTrans f (lockTrace p st l2)
    omega
  | cons m t ih =>
    intro l2 st
    have hc1 := countTrans_cons_trace f p st (lockStep p st m) (t ++ l2)
    have hc2 := countTrans_cons_trace f p st (lockStep p st m) t
    have hr : lockRun p st (m :: t) = lockRun p (lockStep p st m) t := rfl
    have ht : lockTrace p st ((m :: t) ++ l2)
        = st :: lockTrace p (lockStep p st m) (t ++ l2) := rfl
    have ht2 : lockTrace p st (m :: t) = st :: lockTrace p (lockStep p st m) t := rfl
    rw [ht, hc1, ih, ht2, hc2, hr]
    omega

/-- While the metric stays below the threshold, a searching demodulator
stays exactly in the initial searching state and no transition occurs. -/
theorem lock_below_segment (p : LockParams) :
    ∀ (ms : List ℚ), (∀ m ∈ ms, lockAbove p m = false) →
    lockRun p ⟨.Searching, 0⟩ ms = ⟨.Searching, 0⟩ ∧
    countTrans isLockUp (lockTrace p ⟨.Searching, 0⟩ ms) = 0 ∧
    countTrans isLockDown (lockTrace p ⟨.Searching, 0⟩ ms) = 0 := by
  intro ms
  induction ms with
  | nil => intro _; exact ⟨rfl, rfl, rfl⟩
  | cons m t ih =>
    intro h
    have hm : lockAbove p m = false := h m (List.mem_cons_self m t)
    have hstep : lockStep p ⟨.Searching, 0⟩ m = ⟨.Searching, 0⟩ := by
      simp [lockStep, hm]
    have ht := ih (fun x hx => h x (List.mem_cons_of_mem m hx))
    have htr : lockTrace p ⟨.Searching, 0⟩ (m :: t)
        = ⟨.Searching, 0⟩ :: lockTrace p (lockStep p ⟨.Searching, 0⟩ m) t := rfl
    refine ⟨?_, ?_, ?_⟩
    · show lockRun p (lockStep p ⟨.Searching, 0⟩ m) t = _
      rw [hstep]; exact ht.1
    · rw [htr, hstep, countTrans_cons_trace]
      simp [isLockUp, ht.2.1]
    · rw [htr, hstep, countTrans_cons_trace]
      simp [isLockDown, ht.2.2]

/-- While the metric stays above the threshold, a locked demodulator stays
exactly locked with a zero streak and no transition occurs. -/
theorem lock_above_locked (p : LockParams) :
    ∀ (ms : List ℚ), (∀ m ∈ ms, lockAbove p m = true) →
    lockRun p ⟨.Locked, 0⟩ ms = ⟨.Locked, 0⟩ ∧
    countTrans isLockUp (lockTrace p ⟨.Locked, 0⟩ ms) = 0 ∧
    countTrans isLockDown (lockTrace p ⟨.Locked, 0⟩ ms) = 0 := by
  intro ms
  induction ms with
  | nil => intro _; exact ⟨rfl, rfl, rfl⟩
  | cons m t ih =>
    intro h
    have hm : lockAbove p m = true := h m (List.mem_cons_self m t)
    have hstep : lockStep p ⟨.Locked, 0⟩ m = ⟨.Locked, 0⟩ := by
      simp [lockStep, hm]
    have ht := ih (fun x hx => h x (List.mem_cons_of_mem m hx))
    have htr : lockTrace p ⟨.Locked, 0⟩ (m :: t)
        = ⟨.Locked, 0⟩ :: lockTrace p (lockStep p ⟨.Locked, 0⟩ m) t := rfl
    refine ⟨?_, ?_, ?_⟩
    · show lockRun p (lockStep p ⟨.Locked, 0⟩ m) t = _
      rw [hstep]; exact ht.1
    · rw [htr, hstep, countTrans_cons_trace]
      simp [isLockUp, ht.2.1]
    · rw [htr, hstep, countTrans_cons_trace]
      simp [isLockDown, ht.2.2]

/-- A searching demodulator fed a long enough all-above metric segment
locks exactly once and never unlocks within the segment. -/
theorem lock_above_searching (p : LockParams) :
    ∀ (ms : List ℚ) (c : ℕ), (∀ m ∈ ms, lockAbove p m = true) →
    c + 1 ≤ p.dwell → p.dwell ≤ c + ms.length →
    (lockRun p ⟨.Searching, c⟩ ms).mode = .Locked ∧
    countTrans isLockUp (lockTrace p ⟨.Searching, c⟩ ms) = 1 ∧
    countTrans isLockDown (lockTrace p ⟨.Searching, c⟩ ms) = 0 := by
  intro ms
  induction ms with
  | nil =>
    intro c _ hc hl
    exfalso
    simp [List.length_nil] at hl
    omega
  | cons m t ih =>
    intro c h hc hl
    have hm : lockAbove p m = true := h m (List.mem_cons_self m t)
    have ht2 : ∀ x ∈ t, lockAbove p x = true :=
      fun x hx => h x (List.mem_cons_of_mem m hx)
    have htr : lockTrace p ⟨.Searching, c⟩ (m :: t)
        = ⟨.Searching, c⟩ :: lockTrace p (lockStep p ⟨.Searching, c⟩ m) t := rfl
    by_cases hd : p.dwell ≤ c + 1
    · have hstep : lockStep p ⟨.Searching, c⟩ m = ⟨.Locked, 0⟩ := by
        simp [lockStep, hm, hd]
      have hseg := lock_above_locked p t ht2
      refine ⟨?_, ?_, ?_⟩
      · show (lockRun p (lockStep p ⟨.Searching, c⟩ m) t).mode = _
        rw [hstep, hseg.1]
      · rw [htr, hstep, countTrans_cons_trace]
        simp [isLockUp, hseg.2.1]
      · rw [htr, hstep, countTrans_cons_trace]
        simp [isLockDown, hseg.2.2]
    · have hstep : lockStep p ⟨.Searching, c⟩ m = ⟨.Searching, c + 1⟩ := by
        simp [lockStep, hm, hd]
      have hlen : p.dwell ≤ (c + 1) + t.length := by
        simp [List.length_cons] at hl
        omega
      have hrec := ih (c + 1) ht2 (by omega) hlen
      refine ⟨?_, ?_, ?_⟩
      · show (lockRun p (lockStep p ⟨.Searching, c⟩ m) t).mode = _
        rw [hstep]; exact hrec.1
      · rw [htr, hstep, countTrans_cons_trace]
        simp [isLockUp, hrec.2.1]
      · rw [htr, hstep, countTrans_cons_trace]
        simp [isLockDown, hrec.2.2]

/-- A searching demodulator whose above-threshold runs all fall short of
the dwell count never locks: its mode stays Searching. -/
theorem searching_stable (p : LockParams) :
    ∀ (ms : List ℚ) (c : ℕ),
    (ms ≠ [] → c + (ms.takeWhile (lockAbove p)).length + 1 ≤ p.dwell) →
    (∀ i < ms.length, ((ms.drop i).takeWhile (lockAbove p)).length + 1 ≤ p.dwell) →
    (lockRun p ⟨.Searching, c⟩ ms).mode = .Searching := by
  intro ms
  induction ms with
  | nil => intro c _ _; rfl
  | cons m t ih =>
    intro c h1 h2
    have h1c := h1 (by simp)
    by_cases hm : lockAbove p m = true
    · rw [List.takeWhile_cons, if_pos hm, List.length_cons] at h1c
      have hd : ¬ (p.dwell ≤ c + 1) := by omega
      have hstep : lockStep p ⟨.Searching, c⟩ m = ⟨.Searching, c + 1⟩ := by
        simp [lockStep, hm, hd]
      show (lockRun p (lockStep p ⟨.Searching, c⟩ m) t).mode = _
      rw [hstep]
      apply ih (c + 1)
      · intro _; omega
      · intro i hi
        have := h2 (i + 1) (by simp [List.length_cons]; omega)
        simpa using this
    · have hm2 : lockAbove p m = false := by simpa using hm
      have hstep : lockStep p ⟨.Searching, c⟩ m = ⟨.Searching, 0⟩ := by
        simp [lockStep, hm2]
      show (lockRun p (lockStep p ⟨.Searching, c⟩ m) t).mode = _
      rw [hstep]
      apply ih 0
      · intro hne
        have := h2 1 (by simp [List.length_cons, List.length_pos.mpr hne])
        simpa using this
      · intro i hi
        have := h2 (i + 1) (by simp [List.length_cons]; omega)
        simpa using this

/-- A locked demodulator whose below-threshold runs all fall short of the
hold count never unlocks: its mode stays Locked. -/
theorem locked_stable (p : LockParams) :
    ∀ (ms : List ℚ) (c : ℕ),
    (ms ≠ [] → c + (ms.takeWhile (fun x => ! lockAbove p x)).length + 1 ≤ p.hold) →
    (∀ i < ms.length,
      ((ms.drop i).takeWhile (fun x => ! lockAbove p x)).length + 1 ≤ p.hold) →
    (lockRun p ⟨.Locked, c⟩ ms).mode = .Locked := by
  intro ms
  induction ms with
  | nil => intro c _ _; rfl
  | cons m t ih =>
    intro c h1 h2
    have h1c := h1 (by simp)
    by_cases hm : lockAbove p m = true
    · have hstep : lockStep p ⟨.Locked, c⟩ m = ⟨.Locked, 0⟩ := by
        simp [lockStep, hm]
      show (lockRun p (lockStep p ⟨.Locked, c⟩ m) t).mode = _
      rw [hstep]
      apply ih 0
      · intro hne
        have := h2 1 (by simp [List.length_cons, List.length_pos.mpr hne])
        simpa using this
      · intro i hi
        have := h2 (i + 1) (by simp [List.length_cons]; omega)
        simpa using this
    · have hm2 : lockAbove p m = false := by simpa using hm
      rw [List.takeWhile_cons] at h1c
      simp [hm2, List.length_cons] at h1c
      have hh : ¬ (p.hold ≤ c + 1) := by omega
      have hstep : lockStep p ⟨.Locked, c⟩ m = ⟨.Locked, c + 1⟩ := by
        simp [lockStep, hm2, hh]
      show (lockRun p (lockStep p ⟨.Locked, c⟩ m) t).mode = _
      rw [hstep]
      apply ih (c + 1)
      · intro _; omega
      · intro i hi
        have := h2 (i + 1) (by simp [List.length_cons]; omega)
        simpa using this

/-- C7: demodulator lock hysteresis.  First part: on a metric that crosses
the threshold once and then stays above it long enough for the dwell count,
the state machine performs Searching→Locked exactly once, never transitions
back, and ends Locked.  Second part: on a metric whose above-threshold runs
are all shorter than the dwell count and whose below-threshold runs are all
shorter than the hold count, the mode remains whatever it was. -/
theorem demodulator_lock_hysteresis (p : LockParams) (l1 l2 dither : List ℚ)
    (m0 : LockMode) :
    ((∀ x ∈ l1, lockAbove p x = false) → (∀ x ∈ l2, lockAbove p x = true) →
      1 ≤ p.dwell → p.dwell ≤ l2.length →
      countTrans isLockUp (lockTrace p ⟨.Searching, 0⟩ (l1 ++ l2)) = 1 ∧
      countTrans isLockDown (lockTrace p ⟨.Searching, 0⟩ (l1 ++ l2)) = 0 ∧
      (lockRun p ⟨.Searching, 0⟩ (l1 ++ l2)).mode = .Locked) ∧
    ((∀ i < dither.length,
        ((dither.drop i).takeWhile (lockAbove p)).length + 1 ≤ p.dwell) →
     (∀ i < dither.length,
        ((dither.drop i).takeWhile (fun x => ! lockAbove p x)).length + 1 ≤ p.hold) →
      (lockRun p ⟨m0, 0⟩ dither).mode = m0) := by
  constructor
  · intro hb ha hd hl
    have hseg := lock_below_segment p l1 hb
    have hup := countTrans_trace_append isLockUp p l1 l2 ⟨.Searching, 0⟩
    have hdn := countTrans_trace_append isLockDown p l1 l2 ⟨.Searching, 0⟩
    rw [hseg.1] at hup hdn
    have habove := lock_above_searching p l2 0 ha (by omega) (by omega)
    refine ⟨?_, ?_, ?_⟩
    · rw [hup, hseg.2.1, habove.2.1]
    · rw [hdn, hseg.2.2, habove.2.2]
    · have hsplit : lockRun p ⟨.Searching, 0⟩ (l1 ++ l2)
          = lockRun p (lockRun p ⟨.Searching, 0⟩ l1) l2 := by
        simp [lockRun, List.foldl_append]
      rw [hsplit, hseg.1]
      exact habove.1
  · intro hA hB
    cases m0 with
    | Searching =>
      apply searching_stable p dither 0
      · intro hne
        have := hA 0 (List.length_pos.mpr hne)
        simpa using this
      · exact hA
    | Locked =>
      apply locked_stable p dither 0
      · intro hne
        have := hB 0 (List.length_pos.mpr hne)
        simpa using this
      · exact hB

/-- Concrete check of C7: with threshold 1, dwell 2 and hold 2, the metric
0, 0 then 2, 3 locks exactly once, while the dithering metric 2, 0, 2, 0
leaves a searching demodulator searching. -/
theorem demodulator_lock_hysteresis_witness :
    countTrans isLockUp
      (lockTrace ⟨1, 2, 2⟩ ⟨.Searching, 0⟩ (([0, 0] : List ℚ) ++ [2, 3])) = 1 ∧
    (lockRun ⟨1, 2, 2⟩ ⟨.Searching, 0⟩ ([2, 0, 2, 0] : List ℚ)).mode = .Searching := by
  have h := demodulator_lock_hysteresis ⟨1, 2, 2⟩ [0, 0] [2, 3] [2, 0, 2, 0] .Searching
  exact ⟨(h.1 (by decide) (by decide) (by decide) (by decide)).1,
         h.2 (by decide) (by decide)⟩

end RadioWizard
